import Mathlib

/-!
Verification of the ontograph triple-store library.

The Go sources are shallowly embedded here.  Go strings are modelled as
`List Char` (`GoStr`); all byte-level string operations used by the code
(`strings.Contains`, `strings.LastIndex`, indexing, slicing) are defined on
that representation.  The in-memory backend wraps an rdf2go graph; per the
code's own comments the graph is a plain sequence of triples (duplicates are
possible at the rdf2go level, `One` finds the first match, `Remove` deletes
the found occurrence), so it is modelled as a `List Triple` with
remove-first semantics (`List.erase`).  Term conversion between the NTriple
encoding and rdf2go terms is modelled as the identity on the canonical
encodings, and triple equality is full structural equality, as the store
contract states.  Mutating methods return the new state paired with the
optional error, mirroring Go's mutate-and-return-error style.
-/

namespace Ontograph

/-- Go strings, byte-for-byte (`type Term string` in triple.go). -/
abbrev GoStr := List Char

/-- A term in NTriple text encoding (`type Term string`). -/
abbrev Term := GoStr

/-- Model of `strings.Contains(s, sub)`. -/
def goContains (s sub : GoStr) : Bool :=
  if sub.isPrefixOf s then true
  else
    match s with
    | [] => false
    | _ :: s' => goContains s' sub

/-- Position of the last occurrence of `sub` in `s`
(`strings.LastIndex`, with `none` in place of Go's `-1`). -/
def lastIndexAux (sub : GoStr) : GoStr → Option Nat
  | [] => if sub = [] then some 0 else none
  | c :: s' =>
    match lastIndexAux sub s' with
    | some p => some (p + 1)
    | none => if sub.isPrefixOf (c :: s') then some 0 else none

/-- Go slice `s[a:b]` (total model; every reachable use below is in range). -/
def goSlice (s : GoStr) (a b : Nat) : GoStr :=
  (s.take b).drop a

/-- Model of `NewResourceTerm` (triple.go): wraps a URI as `<uri>`. -/
def NewResourceTerm (uri : GoStr) : Term :=
  '<' :: uri ++ ['>']

/-- Model of `NewLiteralTerm` (triple.go): `"v"`, then `@lang` if non-empty,
then `^^<datatype>` if non-empty. -/
def NewLiteralTerm (literal language datatype : GoStr) : Term :=
  let t := '"' :: literal ++ ['"']
  let t := if language ≠ [] then t ++ '@' :: language else t
  if datatype ≠ [] then t ++ '^' :: '^' :: '<' :: datatype ++ ['>'] else t

/-- Model of `Term.IsResource` (triple.go). -/
def isResource (t : Term) : Bool :=
  t.length > 2 && t.head? == some '<' && t.getLast? == some '>'

/-- Model of `Term.IsLiteral` (triple.go). -/
def isLiteral (t : Term) : Bool :=
  t.length > 2 && t.head? == some '"' &&
    (t.getLast? == some '"' || goContains t ['"', '@'] || goContains t ['"', '^', '^'])

/-- Model of `Term.Value` (triple.go).  In the third and fourth branch Go slices
`s[1:atPos-1]`; the occurrence exists there because of the `Contains`
guard, so the `none` arms are unreachable. -/
def termValue (t : Term) : GoStr :=
  if t.length > 2 then
    if t.head? = some '<' ∧ t.getLast? = some '>' then (t.drop 1).dropLast
    else if t.head? = some '"' ∧ t.getLast? = some '"' then (t.drop 1).dropLast
    else if t.head? = some '"' ∧ goContains t ['"', '@'] then
      match lastIndexAux ['@'] t with
      | some p => goSlice t 1 (p - 1)
      | none => []
    else if t.head? = some '"' ∧ goContains t ['"', '^', '^'] then
      match lastIndexAux ['^', '^'] t with
      | some p => goSlice t 1 (p - 1)
      | none => []
    else []
  else []

/-- Model of `Term.Language` (triple.go). -/
def termLanguage (t : Term) : GoStr :=
  if t.length > 2 ∧ t.head? = some '"' ∧ goContains t ['"', '@'] then
    match lastIndexAux ['@'] t with
    | some p => t.drop (p + 1)
    | none => []
  else []

/-- Model of `Term.Datatype` (triple.go). -/
def termDatatype (t : Term) : GoStr :=
  if t.length > 2 ∧ t.head? = some '"' ∧ goContains t ['"', '^', '^'] then
    match lastIndexAux ['^', '^'] t with
    | some p => termValue (t.drop (p + 2))
    | none => []
  else []

/-- A subject-predicate-object triple (triple.go). -/
structure Triple where
  subject : Term
  predicate : Term
  object : Term
deriving DecidableEq, Repr

/-- Errors shared by the graph stores (graph_store.go). -/
inductive StoreErr where
  | tripleAlreadyExists
  | tripleDoesNotExist
deriving DecidableEq, Repr

/-- Model of `MemoryStore.AddTriple`: checked add; the rdf2go `One` membership test is
the first-occurrence search, `AddTriple` appends. -/
def addTriple (g : List Triple) (trp : Triple) : List Triple × Option StoreErr :=
  if trp ∈ g then (g, some .tripleAlreadyExists)
  else (g ++ [trp], none)

/-- Model of `MemoryStore.AddTripleUnchecked`: absorbs the already-exists conflict. -/
def addTripleUnchecked (g : List Triple) (trp : Triple) : List Triple × Option StoreErr :=
  match addTriple g trp with
  | (g', some .tripleAlreadyExists) => (g', none)
  | r => r

/-- Model of `MemoryStore.AddTriplesUnchecked`: sequential unchecked adds, stopping at
the first error. -/
def addTriplesUnchecked : List Triple → List Triple → List Triple × Option StoreErr
  | g, [] => (g, none)
  | g, trp :: trps =>
    match addTripleUnchecked g trp with
    | (g', none) => addTriplesUnchecked g' trps
    | r => r

/-- Model of `MemoryStore.DeleteTriple`: checked delete; `Remove` deletes the
occurrence found by `One` (the first one). -/
def deleteTriple (g : List Triple) (trp : Triple) : List Triple × Option StoreErr :=
  if trp ∈ g then (g.erase trp, none)
  else (g, some .tripleDoesNotExist)

/-- Model of `MemoryStore.DeleteTripleUnchecked`: `One` then `Remove`; when the triple
is absent `Remove(nil)` is a no-op, which coincides with `List.erase` of an
absent element. -/
def deleteTripleUnchecked (g : List Triple) (trp : Triple) : List Triple × Option StoreErr :=
  (g.erase trp, none)

/-- Model of `MemoryStore.DeleteTriplesUnchecked`: sequential unchecked deletes (a
single unchecked delete never errors, so the loop never aborts early). -/
def deleteTriplesUnchecked : List Triple → List Triple → List Triple × Option StoreErr
  | g, [] => (g, none)
  | g, trp :: trps => deleteTriplesUnchecked (g.erase trp) trps

/-- The loop of `MemoryStore.AddTriples`: adds in order, remembering the
triples added so far, and stops at the first error. -/
def addTriplesLoop : List Triple → List Triple → List Triple → List Triple × List Triple × Option StoreErr
  | g, added, [] => (g, added, none)
  | g, added, trp :: trps =>
    match addTriple g trp with
    | (g', none) => addTriplesLoop g' (added ++ [trp]) trps
    | (g', some e) => (g', added, some e)

/-- Model of `MemoryStore.AddTriples`: checked bulk add; on failure the triples added
so far in this call are revoked with `DeleteTriplesUnchecked`. -/
def addTriples (g : List Triple) (trps : List Triple) : List Triple × Option StoreErr :=
  match addTriplesLoop g [] trps with
  | (g', _, none) => (g', none)
  | (g', added, some e) => ((deleteTriplesUnchecked g' added).1, some e)

/-- The loop of `MemoryStore.DeleteTriples`. -/
def deleteTriplesLoop : List Triple → List Triple → List Triple → List Triple × List Triple × Option StoreErr
  | g, deleted, [] => (g, deleted, none)
  | g, deleted, trp :: trps =>
    match deleteTriple g trp with
    | (g', none) => deleteTriplesLoop g' (deleted ++ [trp]) trps
    | (g', some e) => (g', deleted, some e)

/-- Model of `MemoryStore.DeleteTriples`: checked bulk delete; on failure the triples
deleted so far in this call are re-added with `AddTriplesUnchecked`. -/
def deleteTriples (g : List Triple) (trps : List Triple) : List Triple × Option StoreErr :=
  match deleteTriplesLoop g [] trps with
  | (g', _, none) => (g', none)
  | (g', deleted, some e) => ((addTriplesUnchecked g' deleted).1, some e)

/-- The pattern test of `GetAllMatches`: an empty field is a wildcard,
otherwise the field must be equal. -/
def matchesPat (subj pred obj : GoStr) (t : Triple) : Bool :=
  (subj.isEmpty || t.subject == subj) &&
  (pred.isEmpty || t.predicate == pred) &&
  (obj.isEmpty || t.object == obj)

/-- Model of `MemoryStore.GetAllMatches`: all-wildcard patterns return the full store,
otherwise all triples equal on every non-wildcard field. -/
def getAllMatches (g : List Triple) (subj pred obj : GoStr) : List Triple :=
  if subj.isEmpty && pred.isEmpty && obj.isEmpty then g
  else g.filter (matchesPat subj pred obj)

/-- Model of `MemoryStore.GetAllTriples` is `GetAllMatches("","","")`. -/
def getAllTriples (g : List Triple) : List Triple :=
  getAllMatches g [] [] []

/-- Model of `MemoryStore.DeleteAllMatches`: collect the matches, then delete them
unchecked. -/
def deleteAllMatches (g : List Triple) (subj pred obj : GoStr) : List Triple :=
  (deleteTriplesUnchecked g (getAllMatches g subj pred obj)).1

/-! Fixed vocabulary (constants.go). -/

/-- Model of `RDFType` (constants.go). -/
def RDFType : GoStr := "http://www.w3.org/1999/02/22-rdf-syntax-ns#type".data

/-- Model of `OWLOntology` (constants.go). -/
def OWLOntology : GoStr := "http://www.w3.org/2002/07/owl#Ontology".data

/-- Model of `OWLClass` (constants.go). -/
def OWLClass : GoStr := "http://www.w3.org/2002/07/owl#Class".data

/-- Model of `OWLEquivalentClass` (constants.go). -/
def OWLEquivalentClass : GoStr := "http://www.w3.org/2002/07/owl#equivalentClass".data

/-- Model of `OWLDisjointWith` (constants.go). -/
def OWLDisjointWith : GoStr := "http://www.w3.org/2002/07/owl#disjointWith".data

/-- Model of `OWLNamedIndividual` (constants.go). -/
def OWLNamedIndividual : GoStr := "http://www.w3.org/2002/07/owl#NamedIndividual".data

/-- Model of `OWLSameAs` (constants.go). -/
def OWLSameAs : GoStr := "http://www.w3.org/2002/07/owl#sameAs".data

/-- Model of `RDFSSubClassOf` (constants.go). -/
def RDFSSubClassOf : GoStr := "http://www.w3.org/2000/01/rdf-schema#subClassOf".data

/-- Model of `RDFSLabel` (constants.go). -/
def RDFSLabel : GoStr := "http://www.w3.org/2000/01/rdf-schema#label".data

/-- Model of `RDFSComment` (constants.go). -/
def RDFSComment : GoStr := "http://www.w3.org/2000/01/rdf-schema#comment".data

/-! Go maps, modelled as association lists without duplicate keys.
`mapSet` is `m[k] = v`, `mapGet` is the read (returning the zero value `""`
when absent), `mapFind` is the `val, ok := m[k]` lookup. -/

/-- Go map read `m[k]` with the string zero value for a missing key. -/
def mapGet (m : List (GoStr × GoStr)) (k : GoStr) : GoStr :=
  match m with
  | [] => []
  | (k', v) :: rest => if k' = k then v else mapGet rest k

/-- Go map lookup `val, ok := m[k]`. -/
def mapFind (m : List (GoStr × GoStr)) (k : GoStr) : Option GoStr :=
  match m with
  | [] => none
  | (k', v) :: rest => if k' = k then some v else mapFind rest k

/-- Go map write `m[k] = v`. -/
def mapSet (m : List (GoStr × GoStr)) (k v : GoStr) : List (GoStr × GoStr) :=
  match m with
  | [] => [(k, v)]
  | (k', v') :: rest => if k' = k then (k, v) :: rest else (k', v') :: mapSet rest k v

/-- Go map-of-slices update `m[k] = append(m[k], v)`. -/
def mapAppend {β : Type} (m : List (GoStr × List β)) (k : GoStr) (v : β) : List (GoStr × List β) :=
  match m with
  | [] => [(k, [v])]
  | (k', vs) :: rest => if k' = k then (k', vs ++ [v]) :: rest else (k', vs) :: mapAppend rest k v

/-- Model of `OntologyDatatype` (ontology data-type source file). -/
structure OntologyDatatype where
  URI : GoStr
  Label : List (GoStr × GoStr)
  Comment : List (GoStr × GoStr)
deriving DecidableEq, Repr

/-- Model of `GenericLiteral` (the generic-literal source file). -/
structure GenericLiteral where
  value : Term
  datatype : OntologyDatatype
deriving DecidableEq, Repr

/-- Model of `NewGenericLiteral`: wraps a term, recording its datatype URI. -/
def NewGenericLiteral (t : Term) : GenericLiteral :=
  { value := t, datatype := { URI := termDatatype t, Label := [], Comment := [] } }

/-- Model of `OntologyClass` (the ontology-class source file). -/
structure OntologyClass where
  URI : GoStr
  EquivalentTo : List GoStr
  SubClassOf : List GoStr
  DisjointWith : List GoStr
  Label : List (GoStr × GoStr)
  Comment : List (GoStr × GoStr)
deriving DecidableEq, Repr

/-- Model of `OntologyIndividual` (the ontology-individual source file). -/
structure OntologyIndividual where
  URI : GoStr
  Types : List GoStr
  SameIndividualAs : List GoStr
  ObjectProperties : List (GoStr × List GoStr)
  DataProperties : List (GoStr × List GenericLiteral)
  Label : List (GoStr × GoStr)
  Comment : List (GoStr × GoStr)
deriving DecidableEq, Repr

/-- Model of `OntologyResource` (ontology resource interface): anything with a URI and
a triple representation. -/
structure OntologyResource where
  uri : GoStr
  toTriples : List Triple
deriving DecidableEq, Repr

/-- Ontology errors (ontology graph source file). -/
inductive OntErr where
  | ontologyNotFound
  | ontologyAlreadyExists
  | resourceNotFound
  | resourceDoesNotBelongToGraph
deriving DecidableEq, Repr

/-- Model of `OntologyGraph` over the in-memory backend: the store's URI and triples,
plus the label/comment caches. -/
structure OntologyGraph where
  uri : GoStr
  graph : List Triple
  label : List (GoStr × GoStr)
  comment : List (GoStr × GoStr)
deriving DecidableEq, Repr

/-- Model of `OntologyGraph.SetLabel`: delete the triple recorded in the cache for
`lang` (if any); stop if the new label is empty; otherwise add the new label
triple and sync the cache. -/
def setLabel (ont : OntologyGraph) (label lang : GoStr) : OntologyGraph × Option StoreErr :=
  let ont1 :=
    match mapFind ont.label lang with
    | some val =>
      { ont with graph := (deleteTripleUnchecked ont.graph
          { subject := NewResourceTerm ont.uri
            predicate := NewResourceTerm RDFSLabel
            object := NewLiteralTerm val lang [] }).1 }
    | none => ont
  if label = [] then (ont1, none)
  else
    let g2 := (addTripleUnchecked ont1.graph
        { subject := NewResourceTerm ont1.uri
          predicate := NewResourceTerm RDFSLabel
          object := NewLiteralTerm label lang [] }).1
    ({ ont1 with graph := g2, label := mapSet ont1.label lang label }, none)

/-- Model of `OntologyGraph.GetLabel`: reads the cache only. -/
def getLabel (ont : OntologyGraph) (lang : GoStr) : GoStr :=
  mapGet ont.label lang

/-- Model of `OntologyGraph.DeleteResource`: delete every triple with the URI as
subject, then every triple with the URI as object.  (The in-memory
`DeleteAllMatches` never errors.) -/
def deleteResource (ont : OntologyGraph) (uri : GoStr) : OntologyGraph :=
  let g1 := deleteAllMatches ont.graph (NewResourceTerm uri) [] []
  let g2 := deleteAllMatches g1 [] [] (NewResourceTerm uri)
  { ont with graph := g2 }

/-- Model of `OntologyGraph.UpsertResource`.  Go computes
`uri[:strings.LastIndex(uri, "#")]`; when the URI has no `#`, `LastIndex`
is `-1` and the slice expression panics at run time, modelled by `none`.
Otherwise: reject when the prefix differs from the graph URI, else delete
the resource and insert its triples unchecked. -/
def upsertResource (ont : OntologyGraph) (r : OntologyResource) : Option (OntologyGraph × Option OntErr) :=
  match lastIndexAux ['#'] r.uri with
  | none => none
  | some k =>
    if r.uri.take k ≠ ont.uri then some (ont, some .resourceDoesNotBelongToGraph)
    else
      let ont1 := deleteResource ont r.uri
      some ({ ont1 with graph := (addTriplesUnchecked ont1.graph r.toTriples).1 }, none)

/-- The `(predicate, object)` classifier loop body of `OntologyGraph.GetClass`. -/
def getClassFold (uri : GoStr) (class0 : OntologyClass) (trp : Triple) : OntologyClass :=
  if trp.predicate = NewResourceTerm RDFType ∧ trp.object = NewResourceTerm OWLClass then
    { class0 with URI := uri }
  else if trp.predicate = NewResourceTerm OWLEquivalentClass then
    { class0 with EquivalentTo := class0.EquivalentTo ++ [termValue trp.object] }
  else if trp.predicate = NewResourceTerm RDFSSubClassOf then
    { class0 with SubClassOf := class0.SubClassOf ++ [termValue trp.object] }
  else if trp.predicate = NewResourceTerm OWLDisjointWith then
    { class0 with DisjointWith := class0.DisjointWith ++ [termValue trp.object] }
  else if trp.predicate = NewResourceTerm RDFSLabel then
    { class0 with Label := mapSet class0.Label (termLanguage trp.object) (termValue trp.object) }
  else if trp.predicate = NewResourceTerm RDFSComment then
    { class0 with Comment := mapSet class0.Comment (termLanguage trp.object) (termValue trp.object) }
  else class0

/-- Model of `OntologyGraph.GetClass`: scan all triples with the URI as subject; if no
`(rdf:type, owl:Class)` marker was seen, the URI field stays empty and the
call fails with `ResourceNotFound`. -/
def getClass (ont : OntologyGraph) (uri : GoStr) : Except OntErr OntologyClass :=
  let trps := getAllMatches ont.graph (NewResourceTerm uri) [] []
  let c := trps.foldl (getClassFold uri)
    { URI := [], EquivalentTo := [], SubClassOf := [], DisjointWith := [], Label := [], Comment := [] }
  if c.URI = [] then .error .resourceNotFound else .ok c

/-- The classifier loop body of `OntologyGraph.GetIndividual`. -/
def getIndividualFold (uri : GoStr) (indiv : OntologyIndividual) (trp : Triple) : OntologyIndividual :=
  if trp.predicate = NewResourceTerm RDFType ∧ trp.object = NewResourceTerm OWLNamedIndividual then
    { indiv with URI := uri }
  else if trp.predicate = NewResourceTerm RDFType then
    { indiv with Types := indiv.Types ++ [termValue trp.object] }
  else if trp.predicate = NewResourceTerm OWLSameAs then
    { indiv with SameIndividualAs := indiv.SameIndividualAs ++ [termValue trp.object] }
  else if trp.predicate = NewResourceTerm RDFSLabel then
    { indiv with Label := mapSet indiv.Label (termLanguage trp.object) (termValue trp.object) }
  else if trp.predicate = NewResourceTerm RDFSComment then
    { indiv with Comment := mapSet indiv.Comment (termLanguage trp.object) (termValue trp.object) }
  else if isResource trp.object then
    { indiv with ObjectProperties := mapAppend indiv.ObjectProperties (termValue trp.predicate) (termValue trp.object) }
  else if isLiteral trp.object then
    { indiv with DataProperties := mapAppend indiv.DataProperties (termValue trp.predicate) (NewGenericLiteral trp.object) }
  else indiv

/-- Model of `OntologyGraph.GetIndividual`: scan all triples with the URI as subject;
requires the `(rdf:type, owl:NamedIndividual)` marker. -/
def getIndividual (ont : OntologyGraph) (uri : GoStr) : Except OntErr OntologyIndividual :=
  let trps := getAllMatches ont.graph (NewResourceTerm uri) [] []
  let indiv := trps.foldl (getIndividualFold uri)
    { URI := [], Types := [], SameIndividualAs := [], ObjectProperties := []
      DataProperties := [], Label := [], Comment := [] }
  if indiv.URI = [] then .error .resourceNotFound else .ok indiv

/-- Model of `TripleFilter`: the inner lists filter in AND fashion, the outer list in
OR fashion. -/
abbrev TripleFilter := List (List Triple)

/-- Model of `TripleFilter.OrWithClass`: start a new AND-group with one class pattern
(wildcard subject, `rdf:type` predicate, the class as object). -/
def OrWithClass (filter : TripleFilter) (classURI : GoStr) : TripleFilter :=
  filter ++ [[{ subject := [], predicate := NewResourceTerm RDFType, object := NewResourceTerm classURI }]]

/-- Appending a pattern to the last AND-group, creating one if none exists
(shared by the `AndWith*` builders). -/
def appendToLastGroup : TripleFilter → Triple → TripleFilter
  | [], trp => [[trp]]
  | [grp], trp => [grp ++ [trp]]
  | grp :: rest, trp => grp :: appendToLastGroup rest trp

/-- Model of `TripleFilter.AndWithClass`: append a class pattern to the last AND-group. -/
def AndWithClass (filter : TripleFilter) (classURI : GoStr) : TripleFilter :=
  appendToLastGroup filter
    { subject := [], predicate := NewResourceTerm RDFType, object := NewResourceTerm classURI }

/-- Model of `TripleFilter.OrWithObjectProperty`: start a new AND-group with an
object-property pattern. -/
def OrWithObjectProperty (filter : TripleFilter) (propertyURI objectURI : GoStr) : TripleFilter :=
  filter ++ [[{ subject := [], predicate := NewResourceTerm propertyURI, object := NewResourceTerm objectURI }]]

/-- Model of `TripleFilter.AndWithObjectProperty`. -/
def AndWithObjectProperty (filter : TripleFilter) (propertyURI objectURI : GoStr) : TripleFilter :=
  appendToLastGroup filter
    { subject := [], predicate := NewResourceTerm propertyURI, object := NewResourceTerm objectURI }

/-- The subject values of the triples matching a filter pattern — one
`GetAllMatches` call per pattern. -/
def matchingSubjects (g : List Triple) (pat : Triple) : List GoStr :=
  (getAllMatches g pat.subject pat.predicate pat.object).map (fun t => termValue t.subject)

/-- The AND-candidate loop of `GetIndividuals`: the first pattern initialises
the pool, every further pattern intersects it (keeping the order of the new
matches), and an empty pool short-circuits the group. -/
def andLoop (g : List Triple) (pool : Option (List GoStr)) : List Triple → List GoStr
  | [] => pool.getD []
  | pat :: rest =>
    let subs := matchingSubjects g pat
    let newPool :=
      match pool with
      | none => subs
      | some cur => subs.filter (fun cand => cur.contains cand)
    if newPool = [] then [] else andLoop g (some newPool) rest

/-- Appending one AND-pool to the OR-candidate list, skipping duplicates. -/
def orMerge (candidates : List GoStr) (pool : List GoStr) : List GoStr :=
  pool.foldl (fun cs cand => if cand ∈ cs then cs else cs ++ [cand]) candidates

/-- The OR loop of `GetIndividuals` over the AND-groups. -/
def orLoop (g : List Triple) (candidates : List GoStr) : TripleFilter → List GoStr
  | [] => candidates
  | grp :: rest => orLoop g (orMerge candidates (andLoop g none grp)) rest

/-- The candidate-URI computation of `GetIndividuals`: with no filter, every
subject of a `(rdf:type, owl:NamedIndividual)` triple; otherwise the OR/AND
evaluation. -/
def getIndividualsCandidates (g : List Triple) (filters : TripleFilter) : List GoStr :=
  if filters = [] then
    (getAllMatches g [] (NewResourceTerm RDFType) (NewResourceTerm OWLNamedIndividual)).map
      (fun t => termValue t.subject)
  else orLoop g [] filters

/-- The final loading loop of `GetIndividuals`: reconstruct each candidate;
on an error return the individuals resolved so far together with the error. -/
def loadIndividuals (ont : OntologyGraph) : List GoStr → List OntologyIndividual → List OntologyIndividual × Option OntErr
  | [], acc => (acc, none)
  | uri :: rest, acc =>
    match getIndividual ont uri with
    | .ok indiv => loadIndividuals ont rest (acc ++ [indiv])
    | .error e => (acc, some e)

/-- Model of `OntologyGraph.GetIndividuals`. -/
def getIndividuals (ont : OntologyGraph) (filters : TripleFilter) : List OntologyIndividual × Option OntErr :=
  loadIndividuals ont (getIndividualsCandidates ont.graph filters) []

/-! Declarative companions, phrased after the specification's wording, used
to state the reconstruction and filter-evaluation theorems. -/

/-- Folding label/comment triples into a language-keyed map, last scan order
winning on duplicate languages. -/
def labelMapFold (m : List (GoStr × GoStr)) (trps : List Triple) : List (GoStr × GoStr) :=
  trps.foldl (fun m' t => mapSet m' (termLanguage t.object) (termValue t.object)) m

/-- The class the specification describes for a URI carrying the
`owl:Class` marker: each multi-valued relation accumulates every matching
object value of the subject's triples, labels and comments fold into
language-keyed maps. -/
def classSpec (ont : OntologyGraph) (uri : GoStr) : OntologyClass :=
  let trps := getAllMatches ont.graph (NewResourceTerm uri) [] []
  { URI := uri
    EquivalentTo := (trps.filter (fun t => t.predicate == NewResourceTerm OWLEquivalentClass)).map (fun t => termValue t.object)
    SubClassOf := (trps.filter (fun t => t.predicate == NewResourceTerm RDFSSubClassOf)).map (fun t => termValue t.object)
    DisjointWith := (trps.filter (fun t => t.predicate == NewResourceTerm OWLDisjointWith)).map (fun t => termValue t.object)
    Label := labelMapFold [] (trps.filter (fun t => t.predicate == NewResourceTerm RDFSLabel))
    Comment := labelMapFold [] (trps.filter (fun t => t.predicate == NewResourceTerm RDFSComment)) }

/-- The `owl:Class` marker triple for a URI. -/
def classMarker (uri : GoStr) : Triple :=
  { subject := NewResourceTerm uri, predicate := NewResourceTerm RDFType, object := NewResourceTerm OWLClass }

/-- The graph produced by a successful `UpsertResource`: the resource is
deleted (subject and object references) and its triple set inserted
unchecked. -/
def upsertedGraph (ont : OntologyGraph) (r : OntologyResource) : List Triple :=
  (addTriplesUnchecked (deleteResource ont r.uri).graph r.toTriples).1

/-! Concrete data used by the example parts of the claims and by the
witnesses. -/

/-- Example base URI. -/
def exBase : GoStr := "http://ex.org".data

/-- Example individual URI i1. -/
def exI1 : GoStr := "http://ex.org#i1".data

/-- Example individual URI i2. -/
def exI2 : GoStr := "http://ex.org#i2".data

/-- Example individual URI i3. -/
def exI3 : GoStr := "http://ex.org#i3".data

/-- Example individual URI i4. -/
def exI4 : GoStr := "http://ex.org#i4".data

/-- Example class URI T1. -/
def exT1 : GoStr := "http://ex.org#T1".data

/-- Example class URI T2. -/
def exT2 : GoStr := "http://ex.org#T2".data

/-- Example class URI T3. -/
def exT3 : GoStr := "http://ex.org#T3".data

/-- The `owl:NamedIndividual` marker triple for a URI. -/
def indivMarker (u : GoStr) : Triple :=
  { subject := NewResourceTerm u, predicate := NewResourceTerm RDFType, object := NewResourceTerm OWLNamedIndividual }

/-- An `rdf:type` triple. -/
def typeTriple (u ty : GoStr) : Triple :=
  { subject := NewResourceTerm u, predicate := NewResourceTerm RDFType, object := NewResourceTerm ty }

/-- Store with individuals i1(T1), i2(T2), i3(T1,T2,T3), i4(T2,T3). -/
def exStore : List Triple :=
  [ indivMarker exI1, typeTriple exI1 exT1
  , indivMarker exI2, typeTriple exI2 exT2
  , indivMarker exI3, typeTriple exI3 exT1, typeTriple exI3 exT2, typeTriple exI3 exT3
  , indivMarker exI4, typeTriple exI4 exT2, typeTriple exI4 exT3 ]

/-- Ontology over `exStore`. -/
def exOnt : OntologyGraph :=
  { uri := exBase, graph := exStore, label := [], comment := [] }

/-- Triple `A` of the bulk-add example. -/
def tA : Triple := typeTriple exI1 exT1

/-- Triple `B` of the bulk-add example. -/
def tB : Triple := typeTriple exI2 exT2

/-- Triple `C` of the bulk-add example. -/
def tC : Triple := typeTriple exI3 exT3

/-- Triple `D` of the bulk-add example. -/
def tD : Triple := typeTriple exI4 exT1

/-- Language tag of the label example. -/
def langEn : GoStr := "en".data

/-- Cached label value of the label example. -/
def labX : GoStr := "x".data

/-- The stored label triple of the label example. -/
def labelTrp : Triple :=
  { subject := NewResourceTerm exBase, predicate := NewResourceTerm RDFSLabel
    object := NewLiteralTerm labX langEn [] }

/-- The ontology marker triple of the label example. -/
def ontMarkerTrp : Triple :=
  { subject := NewResourceTerm exBase, predicate := NewResourceTerm RDFType
    object := NewResourceTerm OWLOntology }

/-- Ontology whose cache holds label `x` for language `en`, as hydrated by
`LoadOntologyGraph`. -/
def ontC6 : OntologyGraph :=
  { uri := exBase, graph := [ontMarkerTrp, labelTrp], label := [(langEn, labX)], comment := [] }

/-- A resource whose URI contains no `#` fragment separator. -/
def rNoHash : OntologyResource := { uri := "urn:x".data, toTriples := [] }

/-- A resource of a foreign ontology (prefix `http://other.org`). -/
def rFar : OntologyResource := { uri := "http://other.org#r".data, toTriples := [] }

/-- URI of the upsert example resource. -/
def exR : GoStr := "http://ex.org#r".data

/-- URI of a bystander subject in the upsert example. -/
def exW : GoStr := "http://ex.org#w".data

/-- Predicate of the bystander reference in the upsert example. -/
def pRef : GoStr := "http://ex.org#ref".data

/-- A triple that mentions the upserted URI only in object position. -/
def tMention : Triple :=
  { subject := NewResourceTerm exW, predicate := NewResourceTerm pRef, object := NewResourceTerm exR }

/-- Ontology holding only the bystander reference triple. -/
def ontC4 : OntologyGraph := { uri := exBase, graph := [tMention], label := [], comment := [] }

/-- The upsert example resource (with an empty triple set). -/
def rC4 : OntologyResource := { uri := exR, toTriples := [] }

/-- URI of the example class. -/
def clsU : GoStr := "http://ex.org#C".data

/-- A `rdfs:subClassOf` triple on the example class. -/
def subCls : Triple :=
  { subject := NewResourceTerm clsU, predicate := NewResourceTerm RDFSSubClassOf, object := NewResourceTerm exT1 }

/-- Ontology with class triples but no `owl:Class` marker. -/
def ontC5 : OntologyGraph := { uri := exBase, graph := [subCls], label := [], comment := [] }

/-- Ontology with the `owl:Class` marker and a `rdfs:subClassOf` triple. -/
def ontC5b : OntologyGraph := { uri := exBase, graph := [classMarker clsU, subCls], label := [], comment := [] }

/-- A literal value starting with `@`, used against the codec claim. -/
def atEn : GoStr := "@en".data

/-- An ordinary literal value. -/
def vHello : GoStr := "hello".data

/-! ### Store lemmas -/

theorem addTripleUnchecked_eq (g : List Triple) (t : Triple) :
    addTripleUnchecked g t = (if t ∈ g then g else g ++ [t], none) := by
  unfold addTripleUnchecked addTriple
  by_cases h : t ∈ g <;> simp [h]

theorem deleteTriplesUnchecked_fst (ms : List Triple) :
    ∀ g : List Triple, (deleteTriplesUnchecked g ms).1 = g.diff ms := by
  induction ms with
  | nil => intro g; simp [deleteTriplesUnchecked]
  | cons m ms ih => intro g; rw [List.diff_cons]; exact ih (g.erase m)

theorem deleteTriplesUnchecked_restores (added : List Triple) :
    ∀ S : List Triple, (∀ a ∈ added, a ∉ S) → added.Nodup →
      (deleteTriplesUnchecked (S ++ added) added).1 = S := by
  induction added with
  | nil => intro S _ _; simp [deleteTriplesUnchecked]
  | cons c rest ih =>
    intro S hfresh hnd
    have hcS : c ∉ S := hfresh c (by simp)
    have h1 : (S ++ c :: rest).erase c = S ++ rest := by
      rw [List.erase_append_right _ hcS, List.erase_cons_head]
    show (deleteTriplesUnchecked ((S ++ c :: rest).erase c) rest).1 = S
    rw [h1]
    exact ih S (fun a ha => hfresh a (by simp [ha])) hnd.of_cons

theorem addTriplesLoop_failure (trps : List Triple) :
    ∀ (S added g' added' : List Triple) (e : StoreErr),
      (∀ a ∈ added, a ∉ S) → added.Nodup →
      addTriplesLoop (S ++ added) added trps = (g', added', some e) →
      e = .tripleAlreadyExists ∧ (deleteTriplesUnchecked g' added').1 = S := by
  induction trps with
  | nil =>
    intro S added g' added' e _ _ h
    simp [addTriplesLoop] at h
  | cons t ts ih =>
    intro S added g' added' e hfresh hnd h
    by_cases hmem : t ∈ S ++ added
    · rw [show addTriplesLoop (S ++ added) added (t :: ts)
          = ((S ++ added), added, some .tripleAlreadyExists) by
        simp [addTriplesLoop, addTriple, hmem]] at h
      simp only [Prod.mk.injEq, Option.some.injEq] at h
      obtain ⟨hg, hadd, he⟩ := h
      subst hg; subst hadd; subst he
      exact ⟨rfl, deleteTriplesUnchecked_restores added S hfresh hnd⟩
    · rw [show addTriplesLoop (S ++ added) added (t :: ts)
          = addTriplesLoop (S ++ (added ++ [t])) (added ++ [t]) ts by
        simp [addTriplesLoop, addTriple, hmem]] at h
      refine ih S (added ++ [t]) g' added' e ?_ ?_ h
      · intro a ha
        rcases List.mem_append.mp ha with h1 | h2
        · exact hfresh a h1
        · have : a = t := by simpa using h2
          subst this
          exact fun hS => hmem (List.mem_append.mpr (Or.inl hS))
      · rw [List.nodup_append]
        refine ⟨hnd, List.nodup_singleton t, ?_⟩
        intro a ha hb
        have : a = t := by simpa using hb
        subst this
        exact hmem (List.mem_append.mpr (Or.inr ha))

/-- Claim C1: if a checked bulk add fails (some triple already present when
its turn comes), the error is `TripleAlreadyExists` and every triple added
earlier in the call is rolled back, so the store is exactly the initial
state. -/
theorem addTriples_rollback_on_failure (g trps : List Triple)
    (h : (addTriples g trps).2 ≠ none) :
    addTriples g trps = (g, some .tripleAlreadyExists) := by
  rcases hl : addTriplesLoop g [] trps with ⟨g', added, e?⟩
  cases e? with
  | none =>
    exfalso
    apply h
    unfold addTriples
    rw [hl]
  | some e =>
    have hl' : addTriplesLoop (g ++ []) [] trps = (g', added, some e) := by
      simpa using hl
    obtain ⟨he, hrest⟩ :=
      addTriplesLoop_failure trps g [] g' added e (by simp) List.nodup_nil hl'
    subst he
    unfold addTriples
    rw [hl]
    simpa using hrest

/-- Witness for C1, the specification's own example: the store holds `{A,B}`
and `AddTriples([C,A,D])` hits the existing `A`. -/
theorem addTriples_rollback_on_failure_w :
    addTriples [tA, tB] [tC, tA, tD] = ([tA, tB], some .tripleAlreadyExists) :=
  addTriples_rollback_on_failure [tA, tB] [tC, tA, tD] (by decide)

/-! ### Set-semantics lemmas -/

theorem nodup_add_state (g : List Triple) (t : Triple) (h : g.Nodup) :
    (if t ∈ g then g else g ++ [t]).Nodup := by
  by_cases hm : t ∈ g
  · simpa [hm]
  · rw [if_neg hm, List.nodup_append]
    refine ⟨h, List.nodup_singleton t, ?_⟩
    intro a ha hb
    have : a = t := by simpa using hb
    subst this
    exact hm ha

theorem addTriple_fst (g : List Triple) (t : Triple) :
    (addTriple g t).1 = if t ∈ g then g else g ++ [t] := by
  unfold addTriple
  by_cases hm : t ∈ g <;> simp [hm]

theorem addTriple_nodup (g : List Triple) (t : Triple) (h : g.Nodup) :
    (addTriple g t).1.Nodup := by
  rw [addTriple_fst]
  exact nodup_add_state g t h

theorem addTripleUnchecked_nodup (g : List Triple) (t : Triple) (h : g.Nodup) :
    (addTripleUnchecked g t).1.Nodup := by
  rw [addTripleUnchecked_eq]
  exact nodup_add_state g t h

theorem addTriplesUnchecked_nodup (ts : List Triple) :
    ∀ g : List Triple, g.Nodup → ((addTriplesUnchecked g ts).1).Nodup := by
  induction ts with
  | nil => intro g h; simpa [addTriplesUnchecked]
  | cons t ts ih =>
    intro g h
    show ((match addTripleUnchecked g t with
      | (g', none) => addTriplesUnchecked g' ts
      | r => r) : List Triple × Option StoreErr).1.Nodup
    rw [addTripleUnchecked_eq]
    exact ih _ (nodup_add_state g t h)

theorem deleteTriplesUnchecked_nodup (ms : List Triple) :
    ∀ g : List Triple, g.Nodup → ((deleteTriplesUnchecked g ms).1).Nodup := by
  induction ms with
  | nil => intro g h; simpa [deleteTriplesUnchecked]
  | cons m ms ih => intro g h; exact ih (g.erase m) (h.erase m)

theorem addTriplesLoop_nodup (ts : List Triple) :
    ∀ (g added : List Triple), g.Nodup → ((addTriplesLoop g added ts).1).Nodup := by
  induction ts with
  | nil => intro g added h; simpa [addTriplesLoop]
  | cons t ts ih =>
    intro g added h
    by_cases hm : t ∈ g
    · rw [show addTriplesLoop g added (t :: ts) = (g, added, some .tripleAlreadyExists) by
        simp [addTriplesLoop, addTriple, hm]]
      exact h
    · rw [show addTriplesLoop g added (t :: ts) = addTriplesLoop (g ++ [t]) (added ++ [t]) ts by
        simp [addTriplesLoop, addTriple, hm]]
      refine ih (g ++ [t]) (added ++ [t]) ?_
      have := nodup_add_state g t h
      rwa [if_neg hm] at this

theorem addTriples_nodup (g ts : List Triple) (h : g.Nodup) :
    ((addTriples g ts).1).Nodup := by
  unfold addTriples
  rcases hl : addTriplesLoop g [] ts with ⟨g', added, e?⟩
  have hg' : g'.Nodup := by
    have := addTriplesLoop_nodup ts g [] h
    rwa [hl] at this
  cases e? with
  | none => exact hg'
  | some e => exact deleteTriplesUnchecked_nodup added g' hg'

theorem deleteTriple_nodup (g : List Triple) (t : Triple) (h : g.Nodup) :
    (deleteTriple g t).1.Nodup := by
  unfold deleteTriple
  by_cases hm : t ∈ g <;> simp [hm, h, h.erase]

theorem deleteTriplesLoop_nodup (ts : List Triple) :
    ∀ (g deleted : List Triple), g.Nodup → ((deleteTriplesLoop g deleted ts).1).Nodup := by
  induction ts with
  | nil => intro g deleted h; simpa [deleteTriplesLoop]
  | cons t ts ih =>
    intro g deleted h
    by_cases hm : t ∈ g
    · rw [show deleteTriplesLoop g deleted (t :: ts)
          = deleteTriplesLoop (g.erase t) (deleted ++ [t]) ts by
        simp [deleteTriplesLoop, deleteTriple, hm]]
      exact ih (g.erase t) (deleted ++ [t]) (h.erase t)
    · rw [show deleteTriplesLoop g deleted (t :: ts) = (g, deleted, some .tripleDoesNotExist) by
        simp [deleteTriplesLoop, deleteTriple, hm]]
      exact h

theorem deleteTriples_nodup (g ts : List Triple) (h : g.Nodup) :
    ((deleteTriples g ts).1).Nodup := by
  unfold deleteTriples
  rcases hl : deleteTriplesLoop g [] ts with ⟨g', deleted, e?⟩
  have hg' : g'.Nodup := by
    have := deleteTriplesLoop_nodup ts g [] h
    rwa [hl] at this
  cases e? with
  | none => exact hg'
  | some e => exact addTriplesUnchecked_nodup deleted g' hg'

theorem deleteAllMatches_nodup (g : List Triple) (subj pred obj : GoStr) (h : g.Nodup) :
    (deleteAllMatches g subj pred obj).Nodup :=
  deleteTriplesUnchecked_nodup _ g h

/-- Claim C9: the store behaves as a set of triples — every mutation
operation preserves no-duplication; `AddTripleUnchecked` applied twice
leaves exactly one copy; `DeleteTripleUnchecked` of an absent triple is a
no-op. -/
theorem store_set_invariant (g : List Triple) (t : Triple) (ts : List Triple)
    (subj pred obj : GoStr) (hg : g.Nodup) :
    ((addTriple g t).1.Nodup ∧ (addTripleUnchecked g t).1.Nodup ∧
      (addTriples g ts).1.Nodup ∧ (addTriplesUnchecked g ts).1.Nodup) ∧
    ((deleteTriple g t).1.Nodup ∧ (deleteTripleUnchecked g t).1.Nodup ∧
      (deleteTriples g ts).1.Nodup ∧ (deleteTriplesUnchecked g ts).1.Nodup ∧
      (deleteAllMatches g subj pred obj).Nodup) ∧
    ((addTripleUnchecked (addTripleUnchecked g t).1 t).1.count t = 1) ∧
    (t ∉ g → deleteTripleUnchecked g t = (g, none)) := by
  refine ⟨⟨addTriple_nodup g t hg, addTripleUnchecked_nodup g t hg,
      addTriples_nodup g ts hg, addTriplesUnchecked_nodup ts g hg⟩,
    ⟨deleteTriple_nodup g t hg, hg.erase t,
      deleteTriples_nodup g ts hg, deleteTriplesUnchecked_nodup ts g hg,
      deleteAllMatches_nodup g subj pred obj hg⟩, ?_, ?_⟩
  · have h1 : (addTripleUnchecked g t).1 = if t ∈ g then g else g ++ [t] := by
      rw [addTripleUnchecked_eq]
    have hmem : t ∈ (addTripleUnchecked g t).1 := by
      rw [h1]
      by_cases hm : t ∈ g <;> simp [hm]
    have hnd : (addTripleUnchecked g t).1.Nodup := addTripleUnchecked_nodup g t hg
    rw [addTripleUnchecked_eq, if_pos hmem]
    exact List.count_eq_one_of_mem hnd hmem
  · intro hm
    unfold deleteTripleUnchecked
    rw [List.erase_of_not_mem hm]

/-- Witness for C9 at a concrete two-triple store. -/
theorem store_set_invariant_w :
    (addTriples [tA, tB] [tC, tD]).1.Nodup ∧
    (addTripleUnchecked (addTripleUnchecked [tA, tB] tC).1 tC).1.count tC = 1 ∧
    deleteTripleUnchecked [tA, tB] tC = ([tA, tB], none) := by
  have h := store_set_invariant [tA, tB] tC [tC, tD] [] [] [] (by decide)
  exact ⟨h.1.2.2.1, h.2.2.1, h.2.2.2 (by decide)⟩

/-! ### Term-codec lemmas -/

/-- Counterexample to claim C8 as stated: for `v = "@en"` the encoded term
is `"@en"`, which contains the substring `"@`, so `Language()` returns
`en"` instead of the claimed empty string. -/
theorem literal_components_cx :
    termLanguage (NewLiteralTerm atEn [] []) = 'e' :: 'n' :: ['"'] ∧
    termLanguage (NewLiteralTerm atEn [] []) ≠ [] := by decide

/-- Claim C8, amended: `Value` recovers `v` for every `v`; `Language` and
`Datatype` are empty provided the encoded text `"v"` contains neither of
the suffix markers `"@` and `"^^` (for other values the suffix detection
misfires, as the counterexample shows). -/
theorem literal_components (v : GoStr) :
    termValue (NewLiteralTerm v [] []) = v ∧
    (goContains ('"' :: v ++ ['"']) ['"', '@'] = false →
      goContains ('"' :: v ++ ['"']) ['"', '^', '^'] = false →
      termLanguage (NewLiteralTerm v [] []) = [] ∧
      termDatatype (NewLiteralTerm v [] []) = []) := by
  have hterm : NewLiteralTerm v [] [] = '"' :: v ++ ['"'] := by
    simp [NewLiteralTerm]
  constructor
  · rw [hterm]
    cases v with
    | nil => decide
    | cons a v' =>
      have hlen : ('"' :: a :: (v' ++ ['"']) : GoStr).length > 2 := by
        simp
      have hlast : ('"' :: a :: (v' ++ ['"']) : GoStr).getLast? = some '"' := by
        show (('"' :: a :: v' : GoStr) ++ ['"']).getLast? = some '"'
        exact List.getLast?_concat _
      have hdl : (a :: (v' ++ ['"']) : GoStr).dropLast = a :: v' := by
        show ((a :: v' : GoStr) ++ ['"']).dropLast = a :: v'
        exact List.dropLast_concat
      simp only [List.cons_append]
      simp +decide [termValue, hlen, hlast, hdl]
  · intro hc1 hc2
    simp only [List.cons_append] at hc1 hc2
    constructor
    · rw [hterm]
      simp only [List.cons_append]
      simp [termLanguage, hc1]
    · rw [hterm]
      simp only [List.cons_append]
      simp [termDatatype, hc2]

/-- Witness for C8 at the ordinary value `hello`. -/
theorem literal_components_w :
    termValue (NewLiteralTerm vHello [] []) = vHello ∧
    termLanguage (NewLiteralTerm vHello [] []) = [] ∧
    termDatatype (NewLiteralTerm vHello [] []) = [] := by
  have h := literal_components vHello
  exact ⟨h.1, (h.2 (by decide) (by decide)).1, (h.2 (by decide) (by decide)).2⟩

/-! ### Upsert lemmas -/

theorem lastIndexAux_isSome_of_mem (a : Char) :
    ∀ s : GoStr, a ∈ s → (lastIndexAux [a] s).isSome := by
  intro s
  induction s with
  | nil => simp
  | cons c s' ih =>
    intro hmem
    rcases h : lastIndexAux [a] s' with _ | p
    · rcases List.mem_cons.mp hmem with rfl | hmem'
      · simp [lastIndexAux, h, List.isPrefixOf]
      · exact absurd (ih hmem') (by simp [h])
    · simp [lastIndexAux, h]

/-- Counterexample to claim C10 as stated: the resource URI `urn:x` has no
`#`, `strings.LastIndex` is `-1`, and the slice `uri[:-1]` is out of range —
the call panics (modelled as `none`) instead of returning a result. -/
theorem upsertResource_total_cx : upsertResource exOnt rNoHash = none := by decide

/-- Claim C10, amended: `UpsertResource` returns a result (success or error)
for every resource whose URI contains a `#`; for a URI without `#` the
prefix slice index is `-1`, out of range, and the call panics. -/
theorem upsertResource_total_on_hash (ont : OntologyGraph) (r : OntologyResource)
    (h : '#' ∈ r.uri) : upsertResource ont r ≠ none := by
  unfold upsertResource
  rcases hk : lastIndexAux ['#'] r.uri with _ | k
  · exact absurd (lastIndexAux_isSome_of_mem '#' r.uri h) (by simp [hk])
  · by_cases hp : r.uri.take k ≠ ont.uri <;> simp [hp]

/-- Witness for C10 on a URI containing `#`. -/
theorem upsertResource_total_on_hash_w : upsertResource exOnt rC4 ≠ none :=
  upsertResource_total_on_hash exOnt rC4 (by decide)

/-- Claim C3: `UpsertResource` on a resource whose URI prefix (truncated at
its last `#`) differs from the ontology base URI fails with
`ResourceDoesNotBelongToGraph` and performs no write — the state returned is
the input state. -/
theorem upsertResource_foreign_rejected (ont : OntologyGraph) (r : OntologyResource) (k : Nat)
    (hk : lastIndexAux ['#'] r.uri = some k)
    (hne : r.uri.take k ≠ ont.uri) :
    upsertResource ont r = some (ont, some .resourceDoesNotBelongToGraph) := by
  unfold upsertResource
  rw [hk]
  simp [hne]

/-- Witness for C3: a resource of the foreign ontology `http://other.org`. -/
theorem upsertResource_foreign_rejected_w :
    upsertResource exOnt rFar = some (exOnt, some .resourceDoesNotBelongToGraph) :=
  upsertResource_foreign_rejected exOnt rFar 16 (by decide) (by decide)

/-! ### Pattern-matching and replace lemmas -/

theorem getAllMatches_eq_filter (g : List Triple) (s p o : GoStr) :
    getAllMatches g s p o = g.filter (matchesPat s p o) := by
  unfold getAllMatches
  split
  · next h =>
    simp only [Bool.and_eq_true, List.isEmpty_iff] at h
    obtain ⟨⟨hs, hp⟩, ho⟩ := h
    subst hs; subst hp; subst ho
    have hall : ∀ t : Triple, matchesPat [] [] [] t = true := fun t => by simp [matchesPat]
    exact (List.filter_eq_self.mpr (fun a _ => hall a)).symm
  · rfl

theorem mem_getAllMatches (g : List Triple) (s p o : GoStr) (t : Triple) :
    t ∈ getAllMatches g s p o ↔ t ∈ g ∧ matchesPat s p o t = true := by
  rw [getAllMatches_eq_filter]
  simp [List.mem_filter]

theorem mem_deleteAllMatches (g : List Triple) (s p o : GoStr) (t : Triple) (hg : g.Nodup) :
    t ∈ deleteAllMatches g s p o ↔ t ∈ g ∧ ¬ matchesPat s p o t = true := by
  rw [show deleteAllMatches g s p o = g.diff (getAllMatches g s p o) from
    deleteTriplesUnchecked_fst _ g]
  rw [hg.diff_eq_filter]
  simp only [List.mem_filter, decide_eq_true_eq, mem_getAllMatches]
  constructor
  · rintro ⟨htg, hnm⟩
    exact ⟨htg, fun hm => hnm ⟨htg, hm⟩⟩
  · rintro ⟨htg, hnm⟩
    exact ⟨htg, fun hm => hnm hm.2⟩

theorem matchesPat_subject (u : GoStr) (t : Triple) :
    matchesPat (NewResourceTerm u) [] [] t = (t.subject == NewResourceTerm u) := by
  simp [matchesPat, NewResourceTerm, List.cons_append]

theorem matchesPat_object (u : GoStr) (t : Triple) :
    matchesPat [] [] (NewResourceTerm u) t = (t.object == NewResourceTerm u) := by
  simp [matchesPat, NewResourceTerm, List.cons_append]

theorem addTriplesUnchecked_mem (ts : List Triple) :
    ∀ (g : List Triple) (x : Triple), x ∈ (addTriplesUnchecked g ts).1 ↔ x ∈ g ∨ x ∈ ts := by
  induction ts with
  | nil => intro g x; simp [addTriplesUnchecked]
  | cons t ts ih =>
    intro g x
    show x ∈ ((match addTripleUnchecked g t with
      | (g', none) => addTriplesUnchecked g' ts
      | r => r) : List Triple × Option StoreErr).1 ↔ _
    rw [addTripleUnchecked_eq]
    by_cases hm : t ∈ g
    · rw [if_pos hm]
      rw [ih]
      constructor
      · rintro (hx | hx)
        · exact Or.inl hx
        · exact Or.inr (List.mem_cons.mpr (Or.inr hx))
      · rintro (hx | hx)
        · exact Or.inl hx
        · rcases List.mem_cons.mp hx with rfl | hx'
          · exact Or.inl hm
          · exact Or.inr hx'
    · rw [if_neg hm]
      rw [ih]
      simp only [List.mem_append, List.mem_singleton, List.mem_cons]
      tauto

theorem deleteResource_graph_mem (ont : OntologyGraph) (u : GoStr) (t : Triple)
    (hg : ont.graph.Nodup) :
    t ∈ (deleteResource ont u).graph ↔
      t ∈ ont.graph ∧ t.subject ≠ NewResourceTerm u ∧ t.object ≠ NewResourceTerm u := by
  show t ∈ deleteAllMatches (deleteAllMatches ont.graph (NewResourceTerm u) [] []) [] []
      (NewResourceTerm u) ↔ _
  have h1 : (deleteAllMatches ont.graph (NewResourceTerm u) [] []).Nodup :=
    deleteAllMatches_nodup ont.graph _ _ _ hg
  rw [mem_deleteAllMatches _ _ _ _ _ h1, mem_deleteAllMatches _ _ _ _ _ hg]
  rw [matchesPat_subject, matchesPat_object]
  simp only [beq_iff_eq]
  tauto

/-- Counterexample to claim C4 as stated: `tMention` references the upserted
URI only in object position, yet a successful `UpsertResource` deletes it
(the call goes through `DeleteResource`, which removes inbound references). -/
theorem upsertResource_frame_cx :
    upsertResource ontC4 rC4 = some ({ ontC4 with graph := [] }, none) ∧
    tMention ∈ ontC4.graph ∧
    tMention.subject ≠ NewResourceTerm rC4.uri := by decide

/-- Claim C4, amended: a successful `UpsertResource` deletes the existing
triples whose subject is the resource's URI *and also* every triple
referencing that URI in object position, then inserts the resource's full
triple set; triples mentioning the URI in neither position survive. -/
theorem upsertResource_replace (ont : OntologyGraph) (r : OntologyResource) (k : Nat) (t : Triple)
    (hnd : ont.graph.Nodup)
    (hk : lastIndexAux ['#'] r.uri = some k)
    (hpre : r.uri.take k = ont.uri) :
    upsertResource ont r = some ({ ont with graph := upsertedGraph ont r }, none) ∧
    (t ∈ upsertedGraph ont r ↔
      (t ∈ ont.graph ∧ t.subject ≠ NewResourceTerm r.uri ∧ t.object ≠ NewResourceTerm r.uri) ∨
      t ∈ r.toTriples) := by
  constructor
  · unfold upsertResource
    simp only [hk]
    rw [if_neg (by simp [hpre])]
    rfl
  · unfold upsertedGraph
    rw [addTriplesUnchecked_mem]
    rw [deleteResource_graph_mem ont r.uri t hnd]

/-- Witness for C4 on the concrete upsert example. -/
theorem upsertResource_replace_w :
    upsertResource exOnt rC4 = some ({ exOnt with graph := upsertedGraph exOnt rC4 }, none) ∧
    (tMention ∈ upsertedGraph exOnt rC4 ↔
      (tMention ∈ exOnt.graph ∧ tMention.subject ≠ NewResourceTerm rC4.uri ∧
        tMention.object ≠ NewResourceTerm rC4.uri) ∨
      tMention ∈ rC4.toTriples) :=
  upsertResource_replace exOnt rC4 13 tMention (by decide) (by decide) (by decide)

/-! ### Label-cache behaviour -/

/-- Claim C6, evaluated at the failing input: on an ontology whose cache
holds label `x` for `en`, `SetLabel("", "en")` deletes the stored label
triple and inserts nothing, but never clears the cache entry, so
`GetLabel("en")` still returns the stale `x` instead of the empty string
the claim (and `SetLabel`'s own documentation) promise. -/
theorem setLabel_empty_keeps_stale_cache :
    (setLabel ontC6 [] langEn).2 = none ∧
    labelTrp ∉ ((setLabel ontC6 [] langEn).1).graph ∧
    getLabel ((setLabel ontC6 [] langEn).1) langEn = labX ∧
    labX ≠ [] := by decide

/-! ### Class-reconstruction lemmas -/

theorem getClassFold_foldl (uri : GoStr) : ∀ (trps : List Triple) (c : OntologyClass),
    trps.foldl (getClassFold uri) c =
    { URI := if trps.any (fun t => t.predicate == NewResourceTerm RDFType &&
          t.object == NewResourceTerm OWLClass) = true then uri else c.URI
      EquivalentTo := c.EquivalentTo ++
        ((trps.filter (fun t => t.predicate == NewResourceTerm OWLEquivalentClass)).map
          (fun t => termValue t.object))
      SubClassOf := c.SubClassOf ++
        ((trps.filter (fun t => t.predicate == NewResourceTerm RDFSSubClassOf)).map
          (fun t => termValue t.object))
      DisjointWith := c.DisjointWith ++
        ((trps.filter (fun t => t.predicate == NewResourceTerm OWLDisjointWith)).map
          (fun t => termValue t.object))
      Label := labelMapFold c.Label (trps.filter (fun t => t.predicate == NewResourceTerm RDFSLabel))
      Comment := labelMapFold c.Comment (trps.filter (fun t => t.predicate == NewResourceTerm RDFSComment)) } := by
  intro trps
  induction trps with
  | nil => intro c; simp [labelMapFold]
  | cons t ts ih =>
    intro c
    rw [List.foldl_cons, ih]
    by_cases h1 : t.predicate = NewResourceTerm RDFType ∧ t.object = NewResourceTerm OWLClass
    · obtain ⟨hp, ho⟩ := h1
      simp +decide [getClassFold, List.any_cons, List.filter_cons, labelMapFold, hp, ho, ite_self]
    · by_cases h2 : t.predicate = NewResourceTerm OWLEquivalentClass
      · simp +decide [getClassFold, List.any_cons, List.filter_cons, labelMapFold, h1, h2]
      · by_cases h3 : t.predicate = NewResourceTerm RDFSSubClassOf
        · simp +decide [getClassFold, List.any_cons, List.filter_cons, labelMapFold, h1, h2, h3]
        · by_cases h4 : t.predicate = NewResourceTerm OWLDisjointWith
          · simp +decide [getClassFold, List.any_cons, List.filter_cons, labelMapFold, h1, h2, h3, h4]
          · by_cases h5 : t.predicate = NewResourceTerm RDFSLabel
            · simp +decide [getClassFold, List.any_cons, List.filter_cons, labelMapFold, h1, h2, h3,
                h4, h5]
            · by_cases h6 : t.predicate = NewResourceTerm RDFSComment
              · simp +decide [getClassFold, List.any_cons, List.filter_cons, labelMapFold, h1, h2,
                  h3, h4, h5, h6]
              · simp +decide [getClassFold, List.any_cons, List.filter_cons, labelMapFold, h1, h2,
                  h3, h4, h5, h6]

/-- Claim C5: `GetClass(u)` fails with `ResourceNotFound` whenever the
marker triple `(u, rdf:type, owl:Class)` is absent, even if other triples
with subject `u` exist; when the marker is present (and `u` is a URI, i.e.
non-empty), it succeeds with the class reconstructed from the triples with
subject `u` as the specification describes (`classSpec`). -/
theorem getClass_marker_spec (ont : OntologyGraph) (uri : GoStr) :
    (classMarker uri ∉ ont.graph → getClass ont uri = .error .resourceNotFound) ∧
    (uri ≠ [] → classMarker uri ∈ ont.graph → getClass ont uri = .ok (classSpec ont uri)) := by
  have hany : ((getAllMatches ont.graph (NewResourceTerm uri) [] []).any
      (fun t => t.predicate == NewResourceTerm RDFType && t.object == NewResourceTerm OWLClass)) = true
      ↔ classMarker uri ∈ ont.graph := by
    rw [List.any_eq_true]
    constructor
    · rintro ⟨t, ht, hcond⟩
      rw [mem_getAllMatches] at ht
      obtain ⟨htg, hm⟩ := ht
      rw [matchesPat_subject] at hm
      simp only [beq_iff_eq, Bool.and_eq_true] at hcond hm
      obtain ⟨hp, ho⟩ := hcond
      have ht' : t = classMarker uri := by
        cases t
        simp_all [classMarker]
      rwa [ht'] at htg
    · intro hm
      refine ⟨classMarker uri, ?_, by simp [classMarker]⟩
      rw [mem_getAllMatches]
      exact ⟨hm, by rw [matchesPat_subject]; simp [classMarker]⟩
  constructor
  · intro hnm
    have hfalse : ((getAllMatches ont.graph (NewResourceTerm uri) [] []).any
        (fun t => t.predicate == NewResourceTerm RDFType && t.object == NewResourceTerm OWLClass)) = false := by
      rcases hb : ((getAllMatches ont.graph (NewResourceTerm uri) [] []).any
        (fun t => t.predicate == NewResourceTerm RDFType && t.object == NewResourceTerm OWLClass)) with _ | _
      · rfl
      · exact absurd (hany.mp hb) hnm
    simp only [getClass, getClassFold_foldl, hfalse]
    simp
  · intro huri hm
    have htrue := hany.mpr hm
    simp only [getClass, getClassFold_foldl, htrue]
    simp [huri, classSpec]

/-- Witness for C5: a marked class with one `rdfs:subClassOf` triple. -/
theorem getClass_marker_spec_w :
    getClass ontC5b clsU = .ok (classSpec ontC5b clsU) :=
  (getClass_marker_spec ontC5b clsU).2 (by decide) (by decide)

/-! ### Filter-evaluation lemmas -/

theorem andLoop_some_mem (g : List Triple) (u : GoStr) :
    ∀ (pats : List Triple) (pool : List GoStr),
      u ∈ andLoop g (some pool) pats ↔
        u ∈ pool ∧ ∀ pat ∈ pats, u ∈ matchingSubjects g pat := by
  intro pats
  induction pats with
  | nil => intro pool; simp [andLoop]
  | cons pat rest ih =>
    intro pool
    simp only [andLoop]
    by_cases hE : (matchingSubjects g pat).filter (fun cand => pool.contains cand) = []
    · rw [if_pos hE]
      simp only [List.not_mem_nil, false_iff, List.forall_mem_cons]
      rintro ⟨h1, h2, -⟩
      have : u ∈ (matchingSubjects g pat).filter (fun cand => pool.contains cand) := by
        rw [List.mem_filter]
        exact ⟨h2, by simpa [List.elem_iff] using h1⟩
      rw [hE] at this
      exact List.not_mem_nil u this
    · rw [if_neg hE, ih]
      simp only [List.mem_filter, List.forall_mem_cons, List.elem_iff]
      constructor
      · rintro ⟨⟨hs, hp⟩, hrest⟩
        exact ⟨by simpa using hp, hs, hrest⟩
      · rintro ⟨hp, hs, hrest⟩
        exact ⟨⟨hs, by simpa using hp⟩, hrest⟩

theorem andLoop_none_mem (g : List Triple) (u : GoStr) :
    ∀ pats : List Triple,
      u ∈ andLoop g none pats ↔
        pats ≠ [] ∧ ∀ pat ∈ pats, u ∈ matchingSubjects g pat := by
  intro pats
  cases pats with
  | nil => simp [andLoop]
  | cons pat rest =>
    simp only [andLoop]
    by_cases hE : matchingSubjects g pat = []
    · rw [if_pos hE]
      simp [hE, List.forall_mem_cons]
    · rw [if_neg hE, andLoop_some_mem]
      simp [List.forall_mem_cons]

theorem orMerge_mem (u : GoStr) :
    ∀ (pool cs : List GoStr), u ∈ orMerge cs pool ↔ u ∈ cs ∨ u ∈ pool := by
  intro pool
  induction pool with
  | nil => intro cs; simp [orMerge]
  | cons c rest ih =>
    intro cs
    show u ∈ orMerge (if c ∈ cs then cs else cs ++ [c]) rest ↔ _
    rw [ih]
    by_cases hc : c ∈ cs
    · rw [if_pos hc]
      simp only [List.mem_cons]
      constructor
      · rintro (h | h)
        · exact Or.inl h
        · exact Or.inr (Or.inr h)
      · rintro (h | h | h)
        · exact Or.inl h
        · subst h; exact Or.inl hc
        · exact Or.inr h
    · rw [if_neg hc]
      simp only [List.mem_append, List.mem_singleton, List.mem_cons]
      tauto

theorem orMerge_nodup :
    ∀ (pool cs : List GoStr), cs.Nodup → (orMerge cs pool).Nodup := by
  intro pool
  induction pool with
  | nil => intro cs h; simpa [orMerge]
  | cons c rest ih =>
    intro cs h
    show (orMerge (if c ∈ cs then cs else cs ++ [c]) rest).Nodup
    refine ih _ ?_
    by_cases hc : c ∈ cs
    · simpa [hc]
    · rw [if_neg hc, List.nodup_append]
      refine ⟨h, List.nodup_singleton c, ?_⟩
      intro a ha hb
      have : a = c := by simpa using hb
      subst this
      exact hc ha

theorem orLoop_mem (g : List Triple) (u : GoStr) :
    ∀ (filters : TripleFilter) (cs : List GoStr),
      u ∈ orLoop g cs filters ↔ u ∈ cs ∨ ∃ grp ∈ filters, u ∈ andLoop g none grp := by
  intro filters
  induction filters with
  | nil => intro cs; simp [orLoop]
  | cons grp rest ih =>
    intro cs
    show u ∈ orLoop g (orMerge cs (andLoop g none grp)) rest ↔ _
    rw [ih, orMerge_mem]
    simp only [List.mem_cons]
    constructor
    · rintro ((h | h) | ⟨grp', hg, h⟩)
      · exact Or.inl h
      · exact Or.inr ⟨grp, Or.inl rfl, h⟩
      · exact Or.inr ⟨grp', Or.inr hg, h⟩
    · rintro (h | ⟨grp', hg | hg, h⟩)
      · exact Or.inl (Or.inl h)
      · subst hg; exact Or.inl (Or.inr h)
      · exact Or.inr ⟨grp', hg, h⟩

theorem orLoop_nodup (g : List Triple) :
    ∀ (filters : TripleFilter) (cs : List GoStr), cs.Nodup → (orLoop g cs filters).Nodup := by
  intro filters
  induction filters with
  | nil => intro cs h; simpa [orLoop]
  | cons grp rest ih =>
    intro cs h
    show (orLoop g (orMerge cs (andLoop g none grp)) rest).Nodup
    exact ih _ (orMerge_nodup _ cs h)

/-- Claim C2: `GetIndividuals` evaluates a non-empty filter as OR across
AND-groups — a URI is a candidate exactly when some group is non-empty and
the URI is among the matching subjects of every pattern of that group (the
pool intersections with short-circuit), with the final candidate list
deduplicated; and on the concrete store i1(T1), i2(T2), i3(T1,T2,T3),
i4(T2,T3) the three example filters yield {i1,i3}, {i3,i4} and {i1,i3,i4}. -/
theorem getIndividuals_filter_semantics :
    (∀ (g : List Triple) (filters : TripleFilter), filters ≠ [] →
      (getIndividualsCandidates g filters).Nodup ∧
      ∀ u, (u ∈ getIndividualsCandidates g filters ↔
        ∃ grp ∈ filters, grp ≠ [] ∧ ∀ pat ∈ grp, u ∈ matchingSubjects g pat)) ∧
    ((getIndividuals exOnt (OrWithClass [] exT1)).1.map OntologyIndividual.URI = [exI1, exI3] ∧
      (getIndividuals exOnt (OrWithClass [] exT1)).2 = none) ∧
    ((getIndividuals exOnt (AndWithClass (AndWithClass [] exT2) exT3)).1.map OntologyIndividual.URI
        = [exI3, exI4] ∧
      (getIndividuals exOnt (AndWithClass (AndWithClass [] exT2) exT3)).2 = none) ∧
    ((getIndividuals exOnt (OrWithClass (OrWithClass [] exT1) exT3)).1.map OntologyIndividual.URI
        = [exI1, exI3, exI4] ∧
      (getIndividuals exOnt (OrWithClass (OrWithClass [] exT1) exT3)).2 = none) := by
  refine ⟨?_, by decide, by decide, by decide⟩
  intro g filters hne
  unfold getIndividualsCandidates
  rw [if_neg hne]
  refine ⟨orLoop_nodup g filters [] List.nodup_nil, fun u => ?_⟩
  rw [orLoop_mem]
  simp only [List.not_mem_nil, false_or]
  constructor
  · rintro ⟨grp, hg, h⟩
    rw [andLoop_none_mem] at h
    exact ⟨grp, hg, h⟩
  · rintro ⟨grp, hg, h⟩
    refine ⟨grp, hg, ?_⟩
    rw [andLoop_none_mem]
    exact h

/-- Witness for C2: the general part applied to the concrete store and the
two-group filter. -/
theorem getIndividuals_filter_semantics_w :
    (getIndividualsCandidates exOnt.graph (OrWithClass (OrWithClass [] exT1) exT3)).Nodup :=
  (getIndividuals_filter_semantics.1 exOnt.graph (OrWithClass (OrWithClass [] exT1) exT3)
    (by decide)).1

end Ontograph
